import Mathlib

/-!
Verification of the StockPriceGenerator core: the parameter parser
(`src/ui/util.py`), the GBM generator (`src/models/gbm.py`), the
stochastic-volatility generator (`src/models/svm.py`), and the
interval chainer (`src/ui/simulator_ui.py`, `run_simulation`).

Modelling conventions: Python floats are modelled by real numbers
(parsed parameter values by exact rationals, since Python parses via
`fractions.Fraction` first); NumPy arrays indexed by `t` become
functions `ℕ → ℝ`; the ambient stream of standard-normal draws becomes
an explicit function argument, so every theorem quantifies over all
possible draws; Python `None`-able arguments become `Option`.
-/

/-! ## Parameter parser (`src/ui/util.py`, `parse_float`)

`parse_float` first attempts `float(Fraction(value_str))` (catching
`ValueError` and `ZeroDivisionError`), then falls back to
`float(value_str)`, and finally raises `ValueError`.  We model the
numeric grammar shared by `Fraction` and `float` on the inputs the
program uses: an optional sign followed by either a decimal literal
`digits`, `digits.digits`, `.digits`, `digits.` or (for `Fraction`
only) a fraction `digits/digits`.  Values are exact rationals. -/

def digitsVal (cs : List Char) : ℕ :=
  cs.foldl (fun a c => a * 10 + (c.toNat - 48)) 0

def parseNat (cs : List Char) : Option ℕ :=
  if cs.isEmpty then none
  else if cs.all Char.isDigit then some (digitsVal cs) else none

def splitAt1 (sep : Char) : List Char → Option (List Char × List Char)
  | [] => none
  | c :: cs =>
    if c = sep then some ([], cs)
    else (splitAt1 sep cs).map (fun p => (c :: p.1, p.2))

def parseDecimalCore (cs : List Char) : Option ℚ :=
  match splitAt1 '.' cs with
  | none => (parseNat cs).map (fun n => (n : ℚ))
  | some (a, b) =>
    if a.all Char.isDigit && b.all Char.isDigit && !(a.isEmpty && b.isEmpty) then
      some ((digitsVal a : ℚ) + (digitsVal b : ℚ) / 10 ^ b.length)
    else none

def fractionCore (cs : List Char) : Option ℚ :=
  match splitAt1 '/' cs with
  | some (a, b) =>
    match parseNat a, parseNat b with
    | some n, some d => if d = 0 then none else some ((n : ℚ) / (d : ℚ))
    | _, _ => none
  | none => parseDecimalCore cs

def parseSigned (core : List Char → Option ℚ) : List Char → Option ℚ
  | '-' :: rest => (core rest).map (fun q => -q)
  | '+' :: rest => core rest
  | cs => core cs

/-- Model of Python `Fraction(value_str)` on the program's numeric
grammar; `none` covers both `ValueError` and `ZeroDivisionError`, which
`parse_float` catches identically. -/
def pythonFraction (s : String) : Option ℚ :=
  parseSigned fractionCore s.toList

/-- Model of Python `float(value_str)` on the program's numeric grammar
(a fraction string like "1/365" is not a float literal). -/
def pythonFloat (s : String) : Option ℚ :=
  parseSigned (fun cs =>
    match splitAt1 '/' cs with
    | some _ => none
    | none => parseDecimalCore cs) s.toList

/-- `parse_float` from `src/ui/util.py`: fraction parse first, float
parse as fallback, error (Python `ValueError` carrying the offending
string) when both fail. -/
def parse_float (s : String) : Except String ℚ :=
  match pythonFraction s with
  | some q => .ok q
  | none =>
    match pythonFloat s with
    | some q => .ok q
    | none => .error s

/-! ## OHLC aggregation

Both generators collect the day's sub-step prices in `day_prices`
(indices `(d-1)*spd + 1 .. d*spd` of the price array for day `d`), and
at each day boundary emit `open = S[(d-1)*spd]`, `close = S[d*spd]`,
`high = max(day_prices)`, `low = min(day_prices)`.  Note that the
day's open is not an element of `day_prices`. -/

def openOf (S : ℕ → ℝ) (spd d : ℕ) : ℝ := S ((d - 1) * spd)

def closeOf (S : ℕ → ℝ) (spd d : ℕ) : ℝ := S (d * spd)

def subPrices (S : ℕ → ℝ) (spd d : ℕ) : List ℝ :=
  (List.range spd).map (fun i => S ((d - 1) * spd + 1 + i))

noncomputable def highOf (S : ℕ → ℝ) (spd d : ℕ) : ℝ :=
  (subPrices S spd d).foldl max (S ((d - 1) * spd + 1))

noncomputable def lowOf (S : ℕ → ℝ) (spd d : ℕ) : ℝ :=
  (subPrices S spd d).foldl min (S ((d - 1) * spd + 1))

/-- The per-day OHLC output of a generator: `return days, open_prices,
close_prices, high_prices, low_prices` with `days = 1..T`; the four
price arrays are modelled as functions of the 1-based day index. -/
structure PricePath where
  T : ℕ
  open_prices : ℕ → ℝ
  close_prices : ℕ → ℝ
  high_prices : ℕ → ℝ
  low_prices : ℕ → ℝ

/-! ## GBM generator (`src/models/gbm.py`, `generate_gbm_prices`) -/

structure GbmParams where
  T : ℕ
  dt : ℝ
  S0 : ℝ
  mu : ℝ
  sigma : ℝ
  spd : ℕ
  Z : ℕ → ℝ

/-- The GBM price array: `S[0] = S0`;
`S[t] = S[t-1] * exp((mu - 0.5 sigma^2) dt_intra + sigma sqrt(dt_intra) Z[t])`
with `dt_intra = dt / steps_per_day` and `Z[t]` the fresh standard
normal drawn at loop iteration `t`. -/
noncomputable def gbmS (p : GbmParams) : ℕ → ℝ
  | 0 => p.S0
  | t + 1 =>
    gbmS p t *
      Real.exp ((p.mu - 0.5 * p.sigma ^ 2) * (p.dt / p.spd) +
        p.sigma * Real.sqrt (p.dt / p.spd) * p.Z (t + 1))

noncomputable def gbmPath (p : GbmParams) : PricePath :=
  ⟨p.T, openOf (gbmS p) p.spd, closeOf (gbmS p) p.spd,
    highOf (gbmS p) p.spd, lowOf (gbmS p) p.spd⟩

/-! ## Stochastic-volatility generator (`src/models/svm.py`,
`generate_svm_prices`)

Optional arguments (`None` in Python) become `Option`.  The bubble and
crash day parameters are compared with numeric equality/ordering in
Python, so they are modelled as exact rationals, which keeps those
comparisons decidable. -/

structure SvmParams where
  T : ℕ
  dt : ℝ
  S0 : ℝ
  v0 : ℝ
  kappa : ℝ
  theta : ℝ
  sigma_v : ℝ
  rho : ℝ
  mu : ℝ
  bubble_start : Option ℚ
  bubble_end : Option ℚ
  bubble_mu_extra : Option ℝ
  crash_day : Option ℚ
  crash_factor : Option ℝ
  spd : ℕ
  eps1 : ℕ → ℝ
  eps2 : ℕ → ℝ

noncomputable def svmZ1 (p : SvmParams) (t : ℕ) : ℝ := p.eps1 t

/-- `Z2 = rho * eps1 + sqrt(1 - rho^2) * eps2`. -/
noncomputable def svmZ2 (p : SvmParams) (t : ℕ) : ℝ :=
  p.rho * p.eps1 t + Real.sqrt (1 - p.rho ^ 2) * p.eps2 t

/-- `day = t // steps_per_day + 1` (1-based day of sub-step `t`). -/
def svmDay (p : SvmParams) (t : ℕ) : ℕ := t / p.spd + 1

/-- `drift_today`: `mu + bubble_mu_extra` when all three bubble
parameters are supplied and `bubble_start <= day <= bubble_end`,
else `mu`. -/
noncomputable def svmDrift (p : SvmParams) (t : ℕ) : ℝ :=
  match p.bubble_start, p.bubble_end, p.bubble_mu_extra with
  | some bs, some be, some bme =>
    if bs ≤ (svmDay p t : ℚ) ∧ (svmDay p t : ℚ) ≤ be then p.mu + bme else p.mu
  | _, _, _ => p.mu

/-- The raw Euler variance update at sub-step `t`, before the clamp:
`v[t] + kappa (theta - v[t]) dt_intra
      + sigma_v sqrt(max(v[t],0) dt_intra) Z2[t]`. -/
noncomputable def svmVraw (p : SvmParams) (vt : ℝ) (t : ℕ) : ℝ :=
  vt + p.kappa * (p.theta - vt) * (p.dt / p.spd) +
    p.sigma_v * Real.sqrt (max vt 0 * (p.dt / p.spd)) * svmZ2 p t

/-- The variance array: `v[t+1]` is the raw Euler update, then set to
`0` when the update came out negative (`if v[t+1] < 0: v[t+1] = 0`). -/
noncomputable def svmV (p : SvmParams) : ℕ → ℝ
  | 0 => p.v0
  | t + 1 =>
    if svmVraw p (svmV p t) t < 0 then 0 else svmVraw p (svmV p t) t

/-- The log-Euler price diffusion step with the pre-update variance:
`st * exp((drift_today - 0.5 vt) dt_intra + sqrt(max(vt,0) dt_intra) Z1[t])`. -/
noncomputable def svmStep (p : SvmParams) (st vt : ℝ) (t : ℕ) : ℝ :=
  st * Real.exp ((svmDrift p t - 0.5 * vt) * (p.dt / p.spd) +
    Real.sqrt (max vt 0 * (p.dt / p.spd)) * svmZ1 p t)

/-- The price array: diffusion step, then multiplied by `crash_factor`
when the crash is configured and `t+1 == crash_day * steps_per_day`
(the code also writes the adjusted value back into `day_prices`, so
the day's high/low/close see it). -/
noncomputable def svmS (p : SvmParams) : ℕ → ℝ
  | 0 => p.S0
  | t + 1 =>
    match p.crash_day, p.crash_factor with
    | some cd, some cf =>
      if ((t : ℚ) + 1) = cd * (p.spd : ℚ) then
        svmStep p (svmS p t) (svmV p t) t * cf
      else svmStep p (svmS p t) (svmV p t) t
    | _, _ => svmStep p (svmS p t) (svmV p t) t

noncomputable def svmPath (p : SvmParams) : PricePath :=
  ⟨p.T, openOf (svmS p) p.spd, closeOf (svmS p) p.spd,
    highOf (svmS p) p.spd, lowOf (svmS p) p.spd⟩

/-- The same stochastic-volatility configuration with the crash
disabled (`crash_day = None`). -/
def noCrash (p : SvmParams) : SvmParams := { p with crash_day := none }

/-! ## Interval chainer (`src/ui/simulator_ui.py`, `run_simulation`)

The chainer receives per-interval configurations whose `start`/`end`
fields have already been read as integers (the string-to-int
conversion happens in the same UI layer).  Phase 1 validates
`start_day < end_day` for every interval before anything runs; phase 2
sorts by start day and invokes the generators, overriding each
interval's `S0` with the previous interval's last close (`last_price`)
and calling the generators with the default `steps_per_day = 4`. -/

inductive MCfg where
  | gbm (p : GbmParams)
  | svm (p : SvmParams)

structure ICfg where
  start_day : ℤ
  end_day : ℤ
  model : MCfg

inductive SimError where
  | intervalOrdering
  | invalidLength
deriving DecidableEq

/-- One generator dispatch inside the loop: the interval length `T`
computed from the sorted config replaces the parameter record's `T`,
`S0` is `last_price` when defined, and `steps_per_day` is the
default 4 (the UI call sites pass neither `steps_per_day` nor
`seed`). -/
noncomputable def runCfg (last : Option ℝ) (T : ℕ) : MCfg → PricePath
  | .gbm p => gbmPath { p with T := T, spd := 4, S0 := last.getD p.S0 }
  | .svm p => svmPath { p with T := T, spd := 4, S0 := last.getD p.S0 }

/-- Phase 2 of `run_simulation`: iterate over the (sorted) interval
configurations threading `last_price`, failing when an interval has
non-positive length. -/
noncomputable def chainGo (last : Option ℝ) : List ICfg → Except SimError (List PricePath)
  | [] => .ok []
  | c :: rest =>
    if (c.end_day - c.start_day).toNat = 0 then .error .invalidLength
    else
      match chainGo (some ((runCfg last (c.end_day - c.start_day).toNat c.model).close_prices
          (runCfg last (c.end_day - c.start_day).toNat c.model).T)) rest with
      | .ok rs => .ok (runCfg last (c.end_day - c.start_day).toNat c.model :: rs)
      | .error e => .error e

/-- Stable insertion used to model `interval_configs.sort(key=start)`
(Python's sort is stable; ties keep their original relative order). -/
def insertI (c : ICfg) : List ICfg → List ICfg
  | [] => [c]
  | d :: ds => if d.start_day < c.start_day then d :: insertI c ds else c :: d :: ds

def sortIntervals : List ICfg → List ICfg
  | [] => []
  | c :: cs => insertI c (sortIntervals cs)

/-- `run_simulation`: phase 1 aborts the whole run when any interval
has `start_day >= end_day` (before any generator is invoked); phase 2
chains the generators over the sorted configurations. -/
noncomputable def run_simulation (cfgs : List ICfg) : Except SimError (List PricePath) :=
  if cfgs.any (fun c => decide (c.end_day ≤ c.start_day)) then .error .intervalOrdering
  else chainGo none (sortIntervals cfgs)

/-- The `Day` column of the `GlobalSeries`: each interval contributes
`arange(1, T+1) + current_offset` and advances the offset by its
length. -/
def gDays (off : ℕ) : List PricePath → List ℕ
  | [] => []
  | r :: rs => ((List.range' 1 r.T).map (fun d => d + off)) ++ gDays (off + r.T) rs

/-! ## Fold lemmas for the daily extrema -/

theorem foldl_min_le_init (l : List ℝ) : ∀ a : ℝ, l.foldl min a ≤ a := by
  induction l with
  | nil => intro a; simp
  | cons x xs ih =>
    intro a
    calc xs.foldl min (min a x) ≤ min a x := ih (min a x)
      _ ≤ a := min_le_left _ _

theorem foldl_min_le_mem {x : ℝ} {l : List ℝ} (hx : x ∈ l) :
    ∀ a : ℝ, l.foldl min a ≤ x := by
  induction l with
  | nil => cases hx
  | cons y ys ih =>
    intro a
    rcases List.mem_cons.mp hx with h | h
    · subst h
      calc ys.foldl min (min a x) ≤ min a x := foldl_min_le_init ys _
        _ ≤ x := min_le_right _ _
    · exact ih h _

theorem init_le_foldl_max (l : List ℝ) : ∀ a : ℝ, a ≤ l.foldl max a := by
  induction l with
  | nil => intro a; simp
  | cons x xs ih =>
    intro a
    calc a ≤ max a x := le_max_left _ _
      _ ≤ xs.foldl max (max a x) := ih (max a x)

theorem mem_le_foldl_max {x : ℝ} {l : List ℝ} (hx : x ∈ l) :
    ∀ a : ℝ, x ≤ l.foldl max a := by
  induction l with
  | nil => cases hx
  | cons y ys ih =>
    intro a
    rcases List.mem_cons.mp hx with h | h
    · subst h
      calc x ≤ max a x := le_max_right _ _
        _ ≤ ys.foldl max (max a x) := init_le_foldl_max ys _
    · exact ih h _

theorem closeOf_mem_subPrices (S : ℕ → ℝ) {spd d : ℕ} (hspd : 1 ≤ spd)
    (hd : 1 ≤ d) : closeOf S spd d ∈ subPrices S spd d := by
  have hidx : (d - 1) * spd + 1 + (spd - 1) = d * spd := by
    cases d with
    | zero => omega
    | succ d0 =>
      cases spd with
      | zero => omega
      | succ s0 => simp only [Nat.succ_sub_one]; ring
  refine List.mem_map.mpr ⟨spd - 1, List.mem_range.mpr (by omega), ?_⟩
  rw [hidx]; rfl

theorem lowOf_le_closeOf (S : ℕ → ℝ) {spd d : ℕ} (hspd : 1 ≤ spd) (hd : 1 ≤ d) :
    lowOf S spd d ≤ closeOf S spd d :=
  foldl_min_le_mem (closeOf_mem_subPrices S hspd hd) _

theorem closeOf_le_highOf (S : ℕ → ℝ) {spd d : ℕ} (hspd : 1 ≤ spd) (hd : 1 ≤ d) :
    closeOf S spd d ≤ highOf S spd d :=
  mem_le_foldl_max (closeOf_mem_subPrices S hspd hd) _

/-! ## C7: parameter parsing -/

/-- C7: `parse_float` returns the value of decimal literals
(`"0.05" ↦ 0.05 = 1/20`) and of fractions `a/b` with `b ≠ 0`
(`"1/365" ↦ 1/365 ≈ 0.0027397`), and fails with the invalid-parameter
error exactly on strings neither parse accepts (`"abc"`) or with a zero
denominator (`"1/0"`); the fraction parse runs first, and the float
fallback alone would reject `"1/365"`. -/
theorem parse_float_spec :
    parse_float "0.05" = .ok (1 / 20) ∧
    parse_float "1/365" = .ok (1 / 365) ∧
    parse_float "abc" = .error "abc" ∧
    parse_float "1/0" = .error "1/0" ∧
    pythonFloat "1/365" = none := by
  refine ⟨?_, ?_, rfl, rfl, rfl⟩
  · have h : parse_float "0.05"
        = .ok ((digitsVal ['0'] : ℚ) + (digitsVal ['0', '5'] : ℚ) / 10 ^ (2 : ℕ)) := rfl
    rw [h, show digitsVal ['0'] = 0 from rfl, show digitsVal ['0', '5'] = 5 from rfl]
    norm_num
  · have h : parse_float "1/365"
        = .ok ((digitsVal ['1'] : ℚ) / (digitsVal ['3', '6', '5'] : ℚ)) := rfl
    rw [h, show digitsVal ['1'] = 1 from rfl,
      show digitsVal ['3', '6', '5'] = 365 from rfl]
    norm_num

/-! ## C1: OHLC consistency

In both generators the day's `open` is `S[(d-1)*spd]`, which is *not*
an element of `day_prices`, so nothing forces `low ≤ open ≤ high`.  A
deterministic rising day (`sigma = 0`, positive drift) puts every
intra-day price strictly above the open, refuting `low ≤ min(open,
close)`.  What does hold is `low ≤ close ≤ high`, since the close is
the last element of `day_prices`. -/

/-- A concrete GBM configuration: `T = 1`, `dt = 1`, `S0 = 1`,
`mu = 1`, `sigma = 0`, `steps_per_day = 4`, all draws zero.  The path
is deterministic and strictly increasing. -/
noncomputable def pDemo : GbmParams :=
  ⟨1, 1, 1, 1, 0, 4, fun _ => 0⟩

/-- A concrete stochastic-volatility configuration (the UI defaults,
no bubble, no crash, all draws zero). -/
noncomputable def qDemo : SvmParams :=
  ⟨1, 1 / 265, 100, 0.04, 3, 0.04, 0.6, -0.7, 0.05,
    none, none, none, none, none, 4, fun _ => 0, fun _ => 0⟩

theorem pDemo_step (t : ℕ) :
    gbmS pDemo (t + 1) = gbmS pDemo t * Real.exp (1 / 4) := by
  show gbmS pDemo t * Real.exp _ = gbmS pDemo t * Real.exp (1 / 4)
  norm_num [pDemo]

theorem pDemo_pos (t : ℕ) : 0 < gbmS pDemo t := by
  induction t with
  | zero => norm_num [gbmS, pDemo]
  | succ s ih => rw [pDemo_step]; exact mul_pos ih (Real.exp_pos _)

theorem pDemo_mono (t : ℕ) : gbmS pDemo t ≤ gbmS pDemo (t + 1) := by
  rw [pDemo_step]
  have h1 : (1 : ℝ) ≤ Real.exp (1 / 4) := Real.one_le_exp (by norm_num)
  exact le_mul_of_one_le_right (pDemo_pos t).le h1

theorem pDemo_one_lt : 1 < gbmS pDemo 1 := by
  have h : gbmS pDemo 1 = gbmS pDemo 0 * Real.exp (1 / 4) := pDemo_step 0
  have h0 : gbmS pDemo 0 = 1 := rfl
  rw [h, h0, one_mul]
  calc (1 : ℝ) = Real.exp 0 := Real.exp_zero.symm
    _ < Real.exp (1 / 4) := Real.exp_lt_exp.mpr (by norm_num)

/-- C1 counterexample: on the rising day of `pDemo`, the GBM
generator's day-1 bar has `low = S[1] > 1 = open = min(open, close)`,
so `low ≤ min(open, close)` fails. -/
theorem gbm_low_gt_open :
    ¬ ((gbmPath pDemo).low_prices 1 ≤
        min ((gbmPath pDemo).open_prices 1) ((gbmPath pDemo).close_prices 1)) := by
  intro hle
  have hlow : (gbmPath pDemo).low_prices 1 =
      min (min (min (min (gbmS pDemo 1) (gbmS pDemo 1)) (gbmS pDemo 2))
        (gbmS pDemo 3)) (gbmS pDemo 4) := rfl
  have h12 : gbmS pDemo 1 ≤ gbmS pDemo 2 := pDemo_mono 1
  have h13 : gbmS pDemo 1 ≤ gbmS pDemo 3 := h12.trans (pDemo_mono 2)
  have h14 : gbmS pDemo 1 ≤ gbmS pDemo 4 := h13.trans (pDemo_mono 3)
  have hlow1 : (gbmPath pDemo).low_prices 1 = gbmS pDemo 1 := by
    rw [hlow, min_self, min_eq_left h12, min_eq_left h13, min_eq_left h14]
  have hopen : (gbmPath pDemo).open_prices 1 = 1 := rfl
  have : gbmS pDemo 1 ≤ 1 := by
    calc gbmS pDemo 1 = (gbmPath pDemo).low_prices 1 := hlow1.symm
      _ ≤ min ((gbmPath pDemo).open_prices 1) ((gbmPath pDemo).close_prices 1) := hle
      _ ≤ (gbmPath pDemo).open_prices 1 := min_le_left _ _
      _ = 1 := hopen
  exact absurd this (not_le.mpr pDemo_one_lt)

/-- C1 amended: for every day of every PricePath produced by either
generator, `low ≤ close ≤ high`; the day's open, being the previous
sub-step's price, is excluded from `day_prices` and may fall outside
`[low, high]` (see the counterexample). -/
theorem ohlc_low_close_high (pg : GbmParams) (ps : SvmParams) (d : ℕ)
    (hg : 1 ≤ pg.spd) (hs : 1 ≤ ps.spd) (hd : 1 ≤ d) :
    ((gbmPath pg).low_prices d ≤ (gbmPath pg).close_prices d ∧
      (gbmPath pg).close_prices d ≤ (gbmPath pg).high_prices d) ∧
    ((svmPath ps).low_prices d ≤ (svmPath ps).close_prices d ∧
      (svmPath ps).close_prices d ≤ (svmPath ps).high_prices d) :=
  ⟨⟨lowOf_le_closeOf (gbmS pg) hg hd, closeOf_le_highOf (gbmS pg) hg hd⟩,
    ⟨lowOf_le_closeOf (svmS ps) hs hd, closeOf_le_highOf (svmS ps) hs hd⟩⟩

/-- Witness for the amended C1 theorem at the concrete configurations
`pDemo`, `qDemo`, day 1. -/
theorem ohlc_low_close_high_witness :
    (1 ≤ pDemo.spd ∧ 1 ≤ qDemo.spd) ∧
    (gbmPath pDemo).low_prices 1 ≤ (gbmPath pDemo).close_prices 1 ∧
    (svmPath qDemo).close_prices 1 ≤ (svmPath qDemo).high_prices 1 :=
  ⟨⟨by norm_num [pDemo], by norm_num [qDemo]⟩,
    (ohlc_low_close_high pDemo qDemo 1 (by norm_num [pDemo]) (by norm_num [qDemo])
      (by norm_num)).1.1,
    (ohlc_low_close_high pDemo qDemo 1 (by norm_num [pDemo]) (by norm_num [qDemo])
      (by norm_num)).2.2⟩

/-! ## C10: open of day d equals close of day d-1 -/

/-- C10: within a single PricePath from either generator, day 1 opens
at `S0` and every day `d ≥ 2` opens at the previous day's close —
both are the same array entry `S[(d-1)*steps_per_day]`, so a
crash-adjusted close carries into the next day's open. -/
theorem open_eq_prev_close (pg : GbmParams) (ps : SvmParams) :
    ((gbmPath pg).open_prices 1 = pg.S0 ∧ (svmPath ps).open_prices 1 = ps.S0) ∧
    ∀ d : ℕ, 2 ≤ d →
      ((gbmPath pg).open_prices d = (gbmPath pg).close_prices (d - 1) ∧
        (svmPath ps).open_prices d = (svmPath ps).close_prices (d - 1)) := by
  constructor
  · constructor
    · show gbmS pg ((1 - 1) * pg.spd) = pg.S0
      norm_num [gbmS]
    · show svmS ps ((1 - 1) * ps.spd) = ps.S0
      norm_num [svmS]
  · intro d _
    exact ⟨rfl, rfl⟩

/-- Witness for C10 at `pDemo`, `qDemo`, day 2. -/
theorem open_eq_prev_close_witness :
    (2 : ℕ) ≤ 2 ∧
    (gbmPath pDemo).open_prices 2 = (gbmPath pDemo).close_prices 1 ∧
    (svmPath qDemo).open_prices 1 = qDemo.S0 :=
  ⟨le_refl 2, ((open_eq_prev_close pDemo qDemo).2 2 (le_refl 2)).1,
    (open_eq_prev_close pDemo qDemo).1.2⟩

/-! ## C4: bubble drift window -/

/-- C4: the drift used at sub-step `t` is `mu + bubble_mu_extra`
exactly on sub-steps whose 1-based day `t / steps_per_day + 1` lies in
`[bubble_start, bubble_end]` with all three bubble parameters
supplied, and `mu` otherwise; with any of the bubble parameters
missing the extra drift is never applied. -/
theorem svm_bubble_drift (p : SvmParams) (t : ℕ) :
    (∀ bs be bme, p.bubble_start = some bs → p.bubble_end = some be →
      p.bubble_mu_extra = some bme →
      ((bs ≤ (svmDay p t : ℚ) ∧ (svmDay p t : ℚ) ≤ be) →
        svmDrift p t = p.mu + bme) ∧
      (¬(bs ≤ (svmDay p t : ℚ) ∧ (svmDay p t : ℚ) ≤ be) →
        svmDrift p t = p.mu)) ∧
    ((p.bubble_start = none ∨ p.bubble_end = none ∨ p.bubble_mu_extra = none) →
      svmDrift p t = p.mu) := by
  constructor
  · intro bs be bme hbs hbe hbme
    constructor
    · intro hcond
      simp [svmDrift, hbs, hbe, hbme, hcond]
    · intro hcond
      simp [svmDrift, hbs, hbe, hbme, hcond]
  · intro h
    cases hb1 : p.bubble_start <;> cases hb2 : p.bubble_end <;>
      cases hb3 : p.bubble_mu_extra <;> simp_all [svmDrift]

/-- The spec's bubble example: `bubble_start = 10`, `bubble_end = 20`,
`bubble_mu_extra = 0.1`, `mu = 0.05`, default resolution 4. -/
noncomputable def pBubble : SvmParams :=
  ⟨30, 1 / 265, 100, 0.04, 3, 0.04, 0.6, -0.7, 0.05,
    some 10, some 20, some (0.1 : ℝ), none, none, 4, fun _ => 0, fun _ => 0⟩

/-- Witness for C4: sub-step 36 lies on day 10 (inside the window) and
gets drift `0.05 + 0.1`; sub-step 32 lies on day 9 and gets `0.05`. -/
theorem svm_bubble_drift_witness :
    svmDrift pBubble 36 = 0.05 + 0.1 ∧ svmDrift pBubble 32 = 0.05 := by
  constructor
  · have h := ((svm_bubble_drift pBubble 36).1 10 20 (0.1 : ℝ) rfl rfl rfl).1
      (by norm_num [svmDay, pBubble])
    simpa [pBubble] using h
  · have h := ((svm_bubble_drift pBubble 32).1 10 20 (0.1 : ℝ) rfl rfl rfl).2
      (by norm_num [svmDay, pBubble])
    simpa [pBubble] using h

/-! ## C5: variance nonnegativity

Every *updated* variance value is clamped at zero, so `v[t] ≥ 0` for
all `t ≥ 1` whatever the inputs.  The initial entry `v[0] = v0` is
taken as supplied, however, so a negative `v0` input puts a negative
value in the variance sequence at index 0. -/

/-- A stochastic-volatility configuration with an adversarial negative
initial variance (`v0 = -1`). -/
noncomputable def pNegV0 : SvmParams :=
  ⟨1, 1, 100, -1, 3, 0.04, 0.6, -0.7, 0.05,
    none, none, none, none, none, 4, fun _ => 0, fun _ => 0⟩

/-- C5 counterexample: with `v0 = -1` the variance sequence is
negative at index 0 — the clamp only guards updated entries. -/
theorem svm_variance_v0_negative : svmV pNegV0 0 < 0 := by
  have h : svmV pNegV0 0 = -1 := rfl
  rw [h]; norm_num

/-- C5 amended: for any input, every updated variance entry
(`t ≥ 1`) is nonnegative thanks to the zero floor, and when the
supplied `v0` is nonnegative the whole variance sequence is. -/
theorem svm_variance_clamped (p : SvmParams) (t : ℕ) :
    (1 ≤ t → 0 ≤ svmV p t) ∧ (0 ≤ p.v0 → 0 ≤ svmV p t) := by
  have hsucc : ∀ s : ℕ, 0 ≤ svmV p (s + 1) := by
    intro s
    show 0 ≤ if svmVraw p (svmV p s) s < 0 then 0 else svmVraw p (svmV p s) s
    split
    · exact le_refl 0
    · next h => exact le_of_not_lt h
  constructor
  · intro ht
    cases t with
    | zero => omega
    | succ s => exact hsucc s
  · intro h0
    cases t with
    | zero => exact h0
    | succ s => exact hsucc s

/-- Witness for the amended C5 theorem: even from the adversarial
`pNegV0` configuration, the first updated variance entry is
nonnegative. -/
theorem svm_variance_clamped_witness :
    (1 : ℕ) ≤ 1 ∧ 0 ≤ svmV pNegV0 1 :=
  ⟨le_refl 1, (svm_variance_clamped pNegV0 1).1 (le_refl 1)⟩

/-! ## C3: the crash event -/

theorem noCrash_V (p : SvmParams) (t : ℕ) : svmV (noCrash p) t = svmV p t := by
  induction t with
  | zero => rfl
  | succ s ih =>
    show (if svmVraw (noCrash p) (svmV (noCrash p) s) s < 0 then (0 : ℝ)
      else svmVraw (noCrash p) (svmV (noCrash p) s) s) = _
    rw [ih]
    rfl

theorem noCrash_S_step (p : SvmParams) (t : ℕ) :
    svmS (noCrash p) (t + 1) =
      svmStep p (svmS (noCrash p) t) (svmV (noCrash p) t) t := rfl

theorem svmStep_mul (p : SvmParams) (c st vt : ℝ) (t : ℕ) :
    svmStep p (c * st) vt t = c * svmStep p st vt t := by
  unfold svmStep
  ring

theorem subPrices_mem (S : ℕ → ℝ) (spd d i : ℕ) (hi : i < spd) :
    S ((d - 1) * spd + 1 + i) ∈ subPrices S spd d :=
  List.mem_map.mpr ⟨i, List.mem_range.mpr hi, rfl⟩

/-- C3: with `crash_day` and `crash_factor` both set, the variance
path is untouched; when some sub-step index `k = t+1` satisfies
`(k : ℚ) = crash_day * steps_per_day` the price path agrees with the
crash-free path strictly before `k` and equals `crash_factor` times it
from `k` on (the factor is applied exactly once, after the diffusion
step at `k`); the crash day's close is scaled by `crash_factor` and
the crash-adjusted price enters the day's low/high extrema; and when
no sub-step index in range satisfies the condition (misaligned
`crash_day` or one beyond the interval), the price path is unchanged
everywhere. -/
theorem svm_crash_once (p : SvmParams) (cd : ℚ) (cf : ℝ)
    (hcd : p.crash_day = some cd) (hcf : p.crash_factor = some cf) :
    (∀ t, svmV p t = svmV (noCrash p) t) ∧
    (∀ k : ℕ, (k : ℚ) = cd * (p.spd : ℚ) → 1 ≤ k →
      (∀ t, t < k → svmS p t = svmS (noCrash p) t) ∧
      (∀ t, k ≤ t → svmS p t = cf * svmS (noCrash p) t)) ∧
    ((∀ u : ℕ, 1 ≤ u → u ≤ p.T * p.spd → (u : ℚ) ≠ cd * (p.spd : ℚ)) →
      ∀ t, t ≤ p.T * p.spd → svmS p t = svmS (noCrash p) t) ∧
    (∀ k : ℕ, (k : ℚ) = cd * (p.spd : ℚ) → 1 ≤ k → 1 ≤ p.spd →
      ((svmPath p).close_prices ((k - 1) / p.spd + 1) =
        cf * (svmPath (noCrash p)).close_prices ((k - 1) / p.spd + 1)) ∧
      ((svmPath p).low_prices ((k - 1) / p.spd + 1) ≤ cf * svmS (noCrash p) k ∧
        cf * svmS (noCrash p) k ≤ (svmPath p).high_prices ((k - 1) / p.spd + 1))) := by
  have hV : ∀ t, svmV p t = svmV (noCrash p) t := fun t => (noCrash_V p t).symm
  have hSstep : ∀ t : ℕ, svmS p (t + 1) =
      if ((t : ℚ) + 1) = cd * (p.spd : ℚ) then
        svmStep p (svmS p t) (svmV p t) t * cf
      else svmStep p (svmS p t) (svmV p t) t := by
    intro t
    simp only [svmS, hcd, hcf]
  have haligned : ∀ k : ℕ, (k : ℚ) = cd * (p.spd : ℚ) → 1 ≤ k →
      (∀ t, t < k → svmS p t = svmS (noCrash p) t) ∧
      (∀ t, k ≤ t → svmS p t = cf * svmS (noCrash p) t) := by
    intro k hk hk1
    have hcast : ∀ t : ℕ, (((t : ℚ) + 1) = cd * (p.spd : ℚ)) ↔ t + 1 = k := by
      intro t
      rw [← hk]
      constructor
      · intro h
        exact_mod_cast h
      · intro h
        exact_mod_cast congrArg (fun n : ℕ => (n : ℚ)) h
    have partA : ∀ t, t < k → svmS p t = svmS (noCrash p) t := by
      intro t
      induction t with
      | zero => intro _; rfl
      | succ s ih =>
        intro hlt
        rw [hSstep s, noCrash_S_step p s,
          if_neg (fun h => by have := (hcast s).mp h; omega),
          ih (by omega), hV s]
    have partB : ∀ t, k ≤ t → svmS p t = cf * svmS (noCrash p) t := by
      intro t
      induction t with
      | zero => intro h; omega
      | succ s ih =>
        intro hks
        by_cases hsk : s + 1 = k
        · rw [hSstep s, if_pos ((hcast s).mpr hsk), noCrash_S_step p s,
            partA s (by omega), hV s]
          exact mul_comm _ _
        · rw [hSstep s, if_neg (fun h => hsk ((hcast s).mp h)),
            ih (by omega), hV s, svmStep_mul, noCrash_S_step p s]
    exact ⟨partA, partB⟩
  refine ⟨hV, haligned, ?_, ?_⟩
  · intro hmiss t
    induction t with
    | zero => intro _; rfl
    | succ s ih =>
      intro hle
      have hne : ¬(((s : ℚ) + 1) = cd * (p.spd : ℚ)) := by
        intro h
        refine hmiss (s + 1) (by omega) hle ?_
        push_cast
        exact h
      rw [hSstep s, if_neg hne, ih (by omega), hV s, noCrash_S_step p s]
  · intro k hk hk1 hspd
    obtain ⟨hA, hB⟩ := haligned k hk hk1
    have hmod : (k - 1) / p.spd * p.spd + (k - 1) % p.spd = k - 1 :=
      Nat.div_add_mod' (k - 1) p.spd
    have hmlt : (k - 1) % p.spd < p.spd := Nat.mod_lt _ (by omega)
    have hkle : k ≤ ((k - 1) / p.spd + 1) * p.spd := by
      have h1 : ((k - 1) / p.spd + 1) * p.spd = (k - 1) / p.spd * p.spd + p.spd :=
        Nat.succ_mul _ _
      omega
    have hclose : (svmPath p).close_prices ((k - 1) / p.spd + 1) =
        cf * (svmPath (noCrash p)).close_prices ((k - 1) / p.spd + 1) :=
      hB (((k - 1) / p.spd + 1) * p.spd) hkle
    refine ⟨hclose, ?_⟩
    have hidx : ((k - 1) / p.spd + 1 - 1) * p.spd + 1 + (k - 1) % p.spd = k := by
      rw [Nat.add_sub_cancel, Nat.add_right_comm, hmod]
      exact Nat.sub_add_cancel hk1
    have hmem : svmS p k ∈ subPrices (svmS p) p.spd ((k - 1) / p.spd + 1) := by
      have := subPrices_mem (svmS p) p.spd ((k - 1) / p.spd + 1) ((k - 1) % p.spd) hmlt
      rwa [hidx] at this
    have hval : svmS p k = cf * svmS (noCrash p) k := hB k le_rfl
    constructor
    · rw [← hval]
      exact foldl_min_le_mem hmem _
    · rw [← hval]
      exact mem_le_foldl_max hmem _

/-! ## C2: chain continuity -/

theorem runCfg_open_one (x : ℝ) (T : ℕ) (m : MCfg) :
    (runCfg (some x) T m).open_prices 1 = x := by
  cases m <;> rfl

theorem runCfg_T (last : Option ℝ) (T : ℕ) (m : MCfg) :
    (runCfg last T m).T = T := by
  cases m <;> rfl

theorem chainGo_head_open (x : ℝ) (cfgs : List ICfg) (r : PricePath)
    (rs : List PricePath) (h : chainGo (some x) cfgs = .ok (r :: rs)) :
    r.open_prices 1 = x := by
  cases cfgs with
  | nil =>
    simp only [chainGo] at h
    injection h with h'
    cases h'
  | cons c rest =>
    simp only [chainGo] at h
    by_cases hT : (c.end_day - c.start_day).toNat = 0
    · rw [if_pos hT] at h
      cases h
    · rw [if_neg hT] at h
      split at h
      · injection h with h'
        injection h' with h1 h2
        rw [← h1]
        exact runCfg_open_one x _ _
      · cases h

theorem chainGo_consec (cfgs : List ICfg) : ∀ (last : Option ℝ) (rs : List PricePath),
    chainGo last cfgs = .ok rs → ∀ i : ℕ, ∀ h1 : i + 1 < rs.length,
      (rs.get ⟨i + 1, h1⟩).open_prices 1 =
        (rs.get ⟨i, Nat.lt_of_succ_lt h1⟩).close_prices
          (rs.get ⟨i, Nat.lt_of_succ_lt h1⟩).T := by
  induction cfgs with
  | nil =>
    intro last rs h i h1
    simp only [chainGo] at h
    injection h with h'
    subst h'
    simp at h1
  | cons c rest ih =>
    intro last rs h i h1
    simp only [chainGo] at h
    by_cases hT : (c.end_day - c.start_day).toNat = 0
    · rw [if_pos hT] at h
      cases h
    · rw [if_neg hT] at h
      split at h
      next rs0 hrec =>
        injection h with h'
        subst h'
        cases i with
        | zero =>
          cases rs0 with
          | nil => simp at h1
          | cons r0 rs1 =>
            exact chainGo_head_open _ rest r0 rs1 hrec
        | succ j =>
          exact ih _ rs0 hrec j (Nat.lt_of_succ_lt_succ h1)
      next e hrec => cases h

/-- C2: whenever `run_simulation` succeeds on a list of intervals, the
first-day open of each chained interval after the first equals the
previous interval's last-day close — the chainer overrides `S0` with
`last_price` before dispatching the generator. -/
theorem chain_continuity (cfgs : List ICfg) (rs : List PricePath)
    (h : run_simulation cfgs = .ok rs) (i : ℕ) (h1 : i + 1 < rs.length) :
    (rs.get ⟨i + 1, h1⟩).open_prices 1 =
      (rs.get ⟨i, Nat.lt_of_succ_lt h1⟩).close_prices
        (rs.get ⟨i, Nat.lt_of_succ_lt h1⟩).T := by
  simp only [run_simulation] at h
  by_cases hany : cfgs.any (fun c => decide (c.end_day ≤ c.start_day)) = true
  · rw [if_pos hany] at h
    cases h
  · rw [if_neg hany] at h
    exact chainGo_consec _ _ _ h i h1

/-- A concrete one-day GBM interval, days 1 to 2. -/
noncomputable def cfgA : ICfg :=
  ⟨1, 2, .gbm ⟨0, 1, 100, 0, 0, 4, fun _ => 0⟩⟩

/-- A concrete one-day GBM interval, days 2 to 3, with a different
`S0` (which chaining overrides). -/
noncomputable def cfgB : ICfg :=
  ⟨2, 3, .gbm ⟨0, 1, 50, 0, 0, 4, fun _ => 0⟩⟩

/-- The value `run_simulation [cfgA, cfgB]` computes to. -/
noncomputable def rsAB : List PricePath :=
  [runCfg none 1 cfgA.model,
    runCfg (some ((runCfg none 1 cfgA.model).close_prices
      (runCfg none 1 cfgA.model).T)) 1 cfgB.model]

/-- Witness for C2 on the two concrete chained intervals. -/
theorem chain_continuity_witness :
    run_simulation [cfgA, cfgB] = .ok rsAB ∧
    (rsAB.get ⟨1, by norm_num [rsAB]⟩).open_prices 1 =
      (rsAB.get ⟨0, by norm_num [rsAB]⟩).close_prices
        ((rsAB.get ⟨0, by norm_num [rsAB]⟩).T) :=
  ⟨rfl, chain_continuity [cfgA, cfgB] rsAB rfl 0 (by norm_num [rsAB])⟩

/-! ## C6: the global day sequence -/

theorem insertI_perm (c : ICfg) (l : List ICfg) : (insertI c l).Perm (c :: l) := by
  induction l with
  | nil => exact List.Perm.refl _
  | cons d ds ih =>
    show (if d.start_day < c.start_day then d :: insertI c ds else c :: d :: ds).Perm _
    split
    · exact (ih.cons d).trans (List.Perm.swap c d ds)
    · exact List.Perm.refl _

theorem sortIntervals_perm (l : List ICfg) : (sortIntervals l).Perm l := by
  induction l with
  | nil => exact List.Perm.refl _
  | cons c cs ih => exact (insertI_perm c (sortIntervals cs)).trans (ih.cons c)

theorem chainGo_T_map (cfgs : List ICfg) : ∀ (last : Option ℝ) (rs : List PricePath),
    chainGo last cfgs = .ok rs →
      rs.map (fun r => r.T) = cfgs.map (fun c => (c.end_day - c.start_day).toNat) := by
  induction cfgs with
  | nil =>
    intro last rs h
    injection h with h'
    subst h'
    rfl
  | cons c rest ih =>
    intro last rs h
    simp only [chainGo] at h
    by_cases hT : (c.end_day - c.start_day).toNat = 0
    · rw [if_pos hT] at h
      cases h
    · rw [if_neg hT] at h
      split at h
      next rs0 hrec =>
        injection h with h'
        subst h'
        show (runCfg last _ c.model).T :: rs0.map (fun r => r.T) = _
        rw [runCfg_T, ih _ rs0 hrec]
        rfl
      next e hrec => cases h

theorem gDays_eq_range (rs : List PricePath) :
    ∀ off : ℕ, gDays off rs = List.range' (off + 1) ((rs.map (fun r => r.T)).sum) := by
  induction rs with
  | nil => intro off; rfl
  | cons r rest ih =>
    intro off
    show ((List.range' 1 r.T).map (fun d => d + off)) ++ gDays (off + r.T) rest = _
    rw [ih (off + r.T)]
    have hmap : (List.range' 1 r.T).map (fun d => d + off) = List.range' (off + 1) r.T := by
      have h1 : (fun d : ℕ => d + off) = (fun d : ℕ => off + d) := by
        funext d
        exact Nat.add_comm d off
      rw [h1, List.map_add_range']
    rw [hmap]
    have happ := List.range'_append (off + 1) r.T ((rest.map (fun r => r.T)).sum) 1
    rw [one_mul] at happ
    have harg : off + 1 + r.T = off + r.T + 1 := by omega
    rw [harg] at happ
    rw [happ]
    have hsum : (List.map (fun r => r.T) (r :: rest)).sum =
        r.T + (rest.map (fun r => r.T)).sum := by
      simp [List.sum_cons]
    rw [hsum]
    exact congrArg (List.range' _) (Nat.add_comm _ _)

/-- C6: on any successful run, the `Day` column of the GlobalSeries is
exactly `1, 2, ..., sum of the interval lengths` — strictly increasing
by 1 from 1 with no gaps at interval boundaries. -/
theorem global_days_exact (cfgs : List ICfg) (rs : List PricePath)
    (h : run_simulation cfgs = .ok rs) :
    gDays 0 rs = List.range' 1 ((cfgs.map (fun c => (c.end_day - c.start_day).toNat)).sum) := by
  simp only [run_simulation] at h
  by_cases hany : cfgs.any (fun c => decide (c.end_day ≤ c.start_day)) = true
  · rw [if_pos hany] at h
    cases h
  · rw [if_neg hany] at h
    have hmapT := chainGo_T_map _ _ _ h
    have hperm : ((sortIntervals cfgs).map fun c => (c.end_day - c.start_day).toNat).Perm
        (cfgs.map fun c => (c.end_day - c.start_day).toNat) :=
      (sortIntervals_perm cfgs).map _
    rw [gDays_eq_range rs 0, hmapT, hperm.sum_eq]

/-- Witness for C6 on the two concrete intervals of length 1 each: the
global day column is `[1, 2]`. -/
theorem global_days_exact_witness :
    run_simulation [cfgA, cfgB] = .ok rsAB ∧ gDays 0 rsAB = [1, 2] := by
  refine ⟨rfl, ?_⟩
  have h := global_days_exact [cfgA, cfgB] rsAB rfl
  rw [h]
  rfl

/-! ## C9: interval-ordering validation -/

/-- C9: any interval with `end_day <= start_day` makes the whole run
fail with the interval-ordering error.  The check runs in the phase-1
validation loop over all intervals, before phase 2 invokes any
generator (and hence before any random draw is consumed), and the
error result carries no price data — no partial GlobalSeries is
returned. -/
theorem interval_ordering_aborts (cfgs : List ICfg) (c : ICfg) (hc : c ∈ cfgs)
    (hord : c.end_day ≤ c.start_day) :
    run_simulation cfgs = .error .intervalOrdering := by
  have hany : cfgs.any (fun c => decide (c.end_day ≤ c.start_day)) = true :=
    List.any_eq_true.mpr ⟨c, hc, decide_eq_true hord⟩
  simp only [run_simulation]
  rw [if_pos hany]

/-- The spec's invalid interval: `start_day = 50`, `end_day = 50`. -/
noncomputable def cfgBad : ICfg :=
  ⟨50, 50, .gbm ⟨0, 1, 100, 0, 0, 4, fun _ => 0⟩⟩

/-- Witness for C9: a chain containing the degenerate interval
(alongside a valid one) aborts with the ordering error. -/
theorem interval_ordering_aborts_witness :
    cfgBad.end_day ≤ cfgBad.start_day ∧
    run_simulation [cfgA, cfgBad] = .error .intervalOrdering :=
  ⟨le_refl _,
    interval_ordering_aborts [cfgA, cfgBad] cfgBad (by simp) (le_refl _)⟩

/-! ## C8: out-of-range parameters are not rejected

`parse_float` validates only the format of a parameter string, and
`run_simulation` performs no range check on any parsed value: a
correlation of `-2` (or a negative `dt`) parses fine and the
simulation proceeds with it. -/

/-- A stochastic-volatility interval whose correlation parameter is
the out-of-range value `rho = -2` parsed from the string `"-2"`. -/
noncomputable def cfgRho : ICfg :=
  ⟨1, 2, .svm ⟨0, 1 / 265, 100, 0.04, 3, 0.04, 0.6, -2, 0.05,
    some 0, some 0, none, some 0, none, 4, fun _ => 0, fun _ => 0⟩⟩

/-- C8 counterexample: the out-of-range correlation string `"-2"`
parses without error, and the run with `rho = -2` completes
successfully instead of failing with an invalid-parameter error. -/
theorem out_of_range_not_rejected :
    parse_float "-2" = .ok (-2) ∧ (run_simulation [cfgRho]).isOk = true := by
  constructor
  · have h : parse_float "-2" = .ok (-(digitsVal ['2'] : ℚ)) := rfl
    rw [h, show digitsVal ['2'] = 2 from rfl]
    norm_num
  · rfl

theorem chainGo_ok_of_valid (cfgs : List ICfg)
    (h : ∀ c ∈ cfgs, c.start_day < c.end_day) :
    ∀ last : Option ℝ, ∃ rs, chainGo last cfgs = .ok rs := by
  induction cfgs with
  | nil => intro last; exact ⟨[], rfl⟩
  | cons c rest ih =>
    intro last
    have hc : c.start_day < c.end_day := h c (List.mem_cons_self c rest)
    have hT : (c.end_day - c.start_day).toNat ≠ 0 := by
      omega
    obtain ⟨rs0, hrs0⟩ := ih (fun d hd => h d (List.mem_cons_of_mem c hd)) _
    refine ⟨runCfg last ((c.end_day - c.start_day).toNat) c.model :: rs0, ?_⟩
    simp only [chainGo]
    rw [if_neg hT, hrs0]

/-- C8 amended: parameter values are never range-checked — whenever
every interval is well-ordered, the run succeeds for arbitrary
parameter values (any `rho`, any `dt`, ...); the only failures
`run_simulation` can produce concern interval ordering and length. -/
theorem valid_intervals_run_ok (cfgs : List ICfg)
    (h : ∀ c ∈ cfgs, c.start_day < c.end_day) :
    ∃ rs, run_simulation cfgs = .ok rs := by
  have hany : cfgs.any (fun c => decide (c.end_day ≤ c.start_day)) = false := by
    rw [List.any_eq_false]
    intro c hc
    simpa using not_le.mpr (h c hc)
  have hsorted : ∀ c ∈ sortIntervals cfgs, c.start_day < c.end_day := by
    intro c hc
    exact h c ((sortIntervals_perm cfgs).mem_iff.mp hc)
  obtain ⟨rs, hrs⟩ := chainGo_ok_of_valid (sortIntervals cfgs) hsorted none
  refine ⟨rs, ?_⟩
  simp only [run_simulation]
  rw [if_neg (by rw [hany]; exact Bool.false_ne_true), hrs]

/-- Witness for the amended C8 theorem: the `rho = -2` interval is
well-ordered, so its run succeeds. -/
theorem valid_intervals_run_ok_witness :
    (∀ c ∈ [cfgRho], c.start_day < c.end_day) ∧
    ∃ rs, run_simulation [cfgRho] = .ok rs :=
  ⟨by intro c hc; simp at hc; subst hc; decide,
    valid_intervals_run_ok [cfgRho] (by intro c hc; simp at hc; subst hc; decide)⟩

/-- The spec's crash example: `crash_day = 15`, `crash_factor = 0.7`,
resolution 4, over a 16-day interval; the crash sub-step is
`k = 15 * 4 = 60`. -/
noncomputable def pCrash : SvmParams :=
  ⟨16, 1 / 265, 100, 0.04, 3, 0.04, 0.6, -0.7, 0.05,
    none, none, none, some 15, some (0.7 : ℝ), 4, fun _ => 0, fun _ => 0⟩

/-- Witness for C3: at the crash sub-step 60 the price is `0.7` times
the crash-free diffused price, and one sub-step earlier the two paths
still agree. -/
theorem svm_crash_once_witness :
    pCrash.crash_day = some 15 ∧ ((60 : ℕ) : ℚ) = 15 * (pCrash.spd : ℚ) ∧
    svmS pCrash 60 = (0.7 : ℝ) * svmS (noCrash pCrash) 60 ∧
    svmS pCrash 59 = svmS (noCrash pCrash) 59 := by
  refine ⟨rfl, by norm_num [pCrash], ?_, ?_⟩
  · exact ((svm_crash_once pCrash 15 (0.7 : ℝ) rfl rfl).2.1 60
      (by norm_num [pCrash]) (by norm_num)).2 60 le_rfl
  · exact ((svm_crash_once pCrash 15 (0.7 : ℝ) rfl rfl).2.1 60
      (by norm_num [pCrash]) (by norm_num)).1 59 (by norm_num)
